import Mathlib

/-!
# p2p-liveness: the `GetNodesLiveness` streaming handler

A shallow embedding of `src/server/main.go`.

The handler talks to three external collaborators (the libp2p host, the ping
service and the gRPC stream).  Their answers are not computed by this
repository, so they are inputs of the model:

* `Codec` holds the pure library functions (`ma.NewMultiaddr`,
  `peerstore.AddrInfoFromP2pAddr`, `time.Duration.String`);
* `World` holds the outcome of every effectful call of one handler invocation
  (`makeNode`, `h.Connect`, `pingService.Ping`, `stream.Send`), indexed by the
  number of earlier calls of the same kind in that invocation.

The handler is a function from the server state and the request to the new
server state, the trace of effectful calls it made, and the returned error.
The endless `for { ... }` loop is run for a given number of passes, and every
external call returns.

The registry is a field of the one `server` value shared by all sessions, and
the handler reads it again at the connection step and at the start of every
pass.  `GetNodesLivenessLive` and `cyclesLive` model this: they take the requests
that other sessions append between two reads.  `GetNodesLiveness` and `cycles`
are the handler running alone, the case in which nothing arrives
(`GetNodesLivenessLive_alone`).
-/

namespace Liveness

/-! ## Data model -/

/-- A Go `error` value that is not nil; `Error` is the text of `err.Error()`. -/
structure GoError where
  Error : String
  deriving DecidableEq, Repr

/-- The `pb.Request` message. -/
structure Request where
  Multiaddresses : List String
  deriving DecidableEq, Repr

/-- The `pb.Response` message. -/
structure Response where
  Pingmessage : String
  deriving DecidableEq, Repr

/-- The `server` struct: the registry shared by all sessions. -/
structure server where
  multiaddresses : List Request
  deriving DecidableEq, Repr

/-- A decoded multiaddress (its canonical text). -/
abbrev Multiaddr := String

/-- A libp2p peer identity. -/
abbrev PeerID := String

/-- The `peer.AddrInfo` struct. -/
structure AddrInfo where
  ID : PeerID
  Addrs : List Multiaddr
  deriving DecidableEq, Repr

/-- The `ping.Result` struct; `RTT` is a `time.Duration` in nanoseconds. -/
structure PingResult where
  RTT : Int
  Error : Option GoError
  deriving DecidableEq, Repr

/-- The constant `time.Second`, in nanoseconds. -/
def Second : Int := 1000000000

/-- The pure library functions the handler uses. -/
structure Codec where
  NewMultiaddr : String → Except GoError Multiaddr
  AddrInfoFromP2pAddr : Multiaddr → Except GoError AddrInfo
  durationString : Int → String

/-- The outcomes of the effectful calls of one handler invocation.  `Connect n p`
is the result of the call of `h.Connect` on `p` made after `n` earlier calls of
`h.Connect`; `Ping` and `Send` are indexed in the same way. -/
structure World where
  makeNode : Option GoError
  Connect : Nat → AddrInfo → Option GoError
  Ping : Nat → PeerID → PingResult
  Send : Nat → Response → Option GoError

/-- The effectful calls of the handler, each with its arguments and its outcome. -/
inductive Event where
  | connect (p : AddrInfo) (err : Option GoError)
  | ping (multiaddr : String) (id : PeerID) (res : PingResult)
  | send (resp : Response) (err : Option GoError)
  | sleep (d : Int)
  | close
  deriving DecidableEq, Repr

/-! ## Observations on a trace -/

/-- The `h.Connect` calls of a trace, in order. -/
def connects : List Event → List (AddrInfo × Option GoError)
  | [] => []
  | Event.connect p err :: rest => (p, err) :: connects rest
  | _ :: rest => connects rest

/-- The probes of a trace, in order. -/
def probes : List Event → List (String × PeerID × PingResult)
  | [] => []
  | Event.ping a id res :: rest => (a, id, res) :: probes rest
  | _ :: rest => probes rest

/-- The `stream.Send` calls of a trace, in order. -/
def responses : List Event → List (Response × Option GoError)
  | [] => []
  | Event.send r err :: rest => (r, err) :: responses rest
  | _ :: rest => responses rest

/-- The inter-cycle sleeps of a trace, in order. -/
def sleeps : List Event → List Int
  | [] => []
  | Event.sleep d :: rest => d :: sleeps rest
  | _ :: rest => sleeps rest

/-! ## The handler -/

/-- The flattened registry: all addresses of all stored requests, in storage order. -/
def flatten : List Request → List String
  | [] => []
  | r :: rs => r.Multiaddresses ++ flatten rs

/-- Decoding of one address string: `ma.NewMultiaddr` followed by
`peerstore.AddrInfoFromP2pAddr` (lines 66-73 and 84-91). -/
def decode (c : Codec) (multiaddr : String) : Except GoError AddrInfo :=
  match c.NewMultiaddr multiaddr with
  | .error err => .error err
  | .ok addr => c.AddrInfoFromP2pAddr addr

/-- The inner loop of the connection step (lines 65-77) over the addresses of one
request.  `tr` is the trace so far; the result is the extended trace and the error
returned from inside the loop, if any. -/
def connectRequest (c : Codec) (w : World) :
    List Event → List String → List Event × Option GoError
  | tr, [] => (tr, none)
  | tr, multiaddr :: rest =>
    match decode c multiaddr with
    | .error err => (tr, some err)
    | .ok p =>
      match w.Connect (connects tr).length p with
      | some err => (tr ++ [Event.connect p (some err)], some err)
      | none => connectRequest c w (tr ++ [Event.connect p none]) rest

/-- The connection step (lines 64-78) over the stored requests. -/
def connectAll (c : Codec) (w : World) :
    List Event → List Request → List Event × Option GoError
  | tr, [] => (tr, none)
  | tr, multiaddrReq :: rest =>
    match connectRequest c w tr multiaddrReq.Multiaddresses with
    | (tr1, some err) => (tr1, some err)
    | (tr1, none) => connectAll c w tr1 rest

/-- The message built on lines 94-100.  `err` is the variable tested on line 96. -/
def pingMessage (c : Codec) (multiaddr : String) (err : Option GoError)
    (pingRes : PingResult) : String :=
  match err with
  | some e => "pinged " ++ multiaddr ++ " errored: " ++ e.Error
  | none => "pinged " ++ multiaddr ++ " in " ++ c.durationString pingRes.RTT

/-- The inner loop of one pass (lines 83-107) over the addresses of one request.
On line 96 the variable `err` is the one assigned on line 88, which is nil once
line 91 has been passed. -/
def probeRequest (c : Codec) (w : World) :
    List Event → List String → List Event × Option GoError
  | tr, [] => (tr, none)
  | tr, multiaddr :: rest =>
    match decode c multiaddr with
    | .error err => (tr, some err)
    | .ok p =>
      let err : Option GoError := none
      let pingRes := w.Ping (probes tr).length p.ID
      let mess := pingMessage c multiaddr err pingRes
      let resp : Response := { Pingmessage := mess }
      match w.Send (responses tr).length resp with
      | some err =>
        (tr ++ [Event.ping multiaddr p.ID pingRes, Event.send resp (some err)], some err)
      | none =>
        probeRequest c w
          (tr ++ [Event.ping multiaddr p.ID pingRes, Event.send resp none]) rest

/-- One pass over the stored requests (lines 82-108). -/
def probeAll (c : Codec) (w : World) :
    List Event → List Request → List Event × Option GoError
  | tr, [] => (tr, none)
  | tr, multiaddrReq :: rest =>
    match probeRequest c w tr multiaddrReq.Multiaddresses with
    | (tr1, some err) => (tr1, some err)
    | (tr1, none) => probeAll c w tr1 rest

/-- The endless loop of lines 81-111, run for at most `n` passes, while no other
session appends to the registry: every pass reads the same `reqs`.  The error is
`none` when the loop is still running after `n` passes. -/
def cycles (c : Codec) (w : World) (reqs : List Request) :
    Nat → List Event → List Event × Option GoError
  | 0, tr => (tr, none)
  | n + 1, tr =>
    match probeAll c w tr reqs with
    | (tr1, some err) => (tr1, some err)
    | (tr1, none) => cycles c w reqs n (tr1 ++ [Event.sleep (2 * Second)])

/-- What is known of a handler invocation: the server state it leaves, the calls it
made, and the error it returned (`none` while it has not returned). -/
structure Outcome where
  srv : server
  trace : List Event
  ret : Option GoError
  deriving DecidableEq, Repr

/-- The handler `GetNodesLiveness` (lines 52-112) running alone, with its loop run
for at most `fuel` passes.  The deferred `h.Close()` runs on every return after
`makeNode` succeeded. -/
def GetNodesLiveness (c : Codec) (w : World) (s : server) (multiaddresses : Request)
    (fuel : Nat) : Outcome :=
  let s1 : server := { multiaddresses := s.multiaddresses ++ [multiaddresses] }
  match w.makeNode with
  | some err => { srv := s1, trace := [], ret := some err }
  | none =>
    match connectAll c w [] s1.multiaddresses with
    | (tr, some err) => { srv := s1, trace := tr ++ [Event.close], ret := some err }
    | (tr, none) =>
      match cycles c w s1.multiaddresses fuel tr with
      | (tr1, some err) => { srv := s1, trace := tr1 ++ [Event.close], ret := some err }
      | (tr1, none) => { srv := s1, trace := tr1, ret := none }

/-! ## The handler among other sessions -/

/-- The endless loop of lines 81-111 with the registry read anew at the start of
every pass (line 82 ranges over the shared field `s.multiaddresses`).  `regs` is the
registry at the previous read, `arrivals k` the requests other sessions appended
since then, `k` the number of the read, `n` the passes still to run.  The result is
the registry at the last read, the trace, and the returned error. -/
def cyclesLive (c : Codec) (w : World) (arrivals : Nat → List Request) :
    Nat → Nat → List Request → List Event → List Request × List Event × Option GoError
  | _, 0, regs, tr => (regs, tr, none)
  | k, n + 1, regs, tr =>
    match probeAll c w tr (regs ++ arrivals k) with
    | (tr1, some err) => (regs ++ arrivals k, tr1, some err)
    | (tr1, none) =>
      cyclesLive c w arrivals (k + 1) n (regs ++ arrivals k)
        (tr1 ++ [Event.sleep (2 * Second)])

/-- The handler `GetNodesLiveness` (lines 52-112) among other sessions.  Line 54
appends the request to the shared registry `s`; `arrivals 0` are the requests other
sessions append before the connection step reads the registry (line 64), and
`arrivals (k + 1)` those they append before pass `k` reads it (line 82).  `srv` is
the registry at the handler's last read. -/
def GetNodesLivenessLive (c : Codec) (w : World) (arrivals : Nat → List Request)
    (s : server) (multiaddresses : Request) (fuel : Nat) : Outcome :=
  let s1 : server := { multiaddresses := s.multiaddresses ++ [multiaddresses] }
  match w.makeNode with
  | some err => { srv := s1, trace := [], ret := some err }
  | none =>
    match connectAll c w [] (s1.multiaddresses ++ arrivals 0) with
    | (tr, some err) =>
      { srv := { multiaddresses := s1.multiaddresses ++ arrivals 0 },
        trace := tr ++ [Event.close], ret := some err }
    | (tr, none) =>
      match cyclesLive c w arrivals 1 fuel (s1.multiaddresses ++ arrivals 0) tr with
      | (regs, tr1, some err) =>
        { srv := { multiaddresses := regs }, trace := tr1 ++ [Event.close],
          ret := some err }
      | (regs, tr1, none) => { srv := { multiaddresses := regs }, trace := tr1, ret := none }

/-! ## Predicates on traces, and successive invocations -/

/-- In the trace `tr` every probe is of an address of `flat`, targets the peer that
address decodes to, and is followed at once by the `stream.Send` of the message
built from it. -/
def Paired (c : Codec) (flat : List String) (tr : List Event) : Prop :=
  ∀ l1 l2 a id res, tr = l1 ++ Event.ping a id res :: l2 →
    a ∈ flat ∧ (∃ p, decode c a = .ok p ∧ id = p.ID) ∧
      ∃ err l3, l2 = Event.send { Pingmessage := pingMessage c a none res } err :: l3

/-- No `stream.Send` of the trace returned an error. -/
def Clean (tr : List Event) : Prop :=
  ∀ r e, Event.send r (some e) ∉ tr

/-- The server state after further handler invocations, one after another; each has
its own world, request and number of passes. -/
def afterCalls (c : Codec) : server → List (World × Request × Nat) → server
  | s, [] => s
  | s, (w, req, fuel) :: rest => afterCalls c (GetNodesLiveness c w s req fuel).srv rest

/-! ## A concrete codec and concrete worlds for the worked examples -/

namespace Example

/-- The loop of Go's `fmtFrac`: `i` digits of `v` are still to be looked at, `buf` is
the text written so far (the buffer is filled from the right). -/
def fmtFracLoop : Nat → String → Nat → Bool → String × Nat × Bool
  | 0, buf, v, print => (buf, v, print)
  | i + 1, buf, v, print =>
    let digit := v % 10
    let print1 := print || digit != 0
    let buf1 := if print1 then toString digit ++ buf else buf
    fmtFracLoop i buf1 (v / 10) print1

/-- Go's `fmtFrac`: the fraction of `v / 10^prec` without trailing zeros, written in
front of `buf`, and the integer part that is left. -/
def fmtFrac (buf : String) (v : Nat) (prec : Nat) : String × Nat :=
  match fmtFracLoop prec buf v false with
  | (buf1, v1, print) => (if print then "." ++ buf1 else buf1, v1)

/-- Go's `fmtInt`: the decimal digits of `v`, written in front of `buf`. -/
def fmtInt (buf : String) (v : Nat) : String :=
  toString v ++ buf

/-- The text of a duration of `d` nanoseconds, after Go's `time.Duration.String`
(standard library, outside this repository).  It instantiates the codec of the
worked examples only; every general theorem holds for an arbitrary rendering. -/
def durationString (d : Int) : String :=
  let u := d.natAbs
  let body : String :=
    if u < 1000000000 then
      if u = 0 then "0s"
      else if u < 1000 then fmtInt (fmtFrac "ns" u 0).1 (fmtFrac "ns" u 0).2
      else if u < 1000000 then fmtInt (fmtFrac "µs" u 3).1 (fmtFrac "µs" u 3).2
      else fmtInt (fmtFrac "ms" u 6).1 (fmtFrac "ms" u 6).2
    else
      let secs := (fmtFrac "s" u 9).2
      let b0 := fmtInt (fmtFrac "s" u 9).1 (secs % 60)
      let mins := secs / 60
      if mins > 0 then
        let b1 := fmtInt ("m" ++ b0) (mins % 60)
        let hours := mins / 60
        if hours > 0 then fmtInt ("h" ++ b1) hours else b1
      else b0
  if d < 0 then "-" ++ body else body

/-- A first well-formed peer address. -/
def addrA : String :=
  "/ip4/104.131.131.82/tcp/4001/p2p/QmaCpDMGvV2BGHeYERUEnRQAwe3N8SzbUtfsmvsqQLuvuJ"

/-- A second well-formed peer address. -/
def addrB : String :=
  "/ip4/127.0.0.1/tcp/4001/p2p/QmNnooDu7bfjPFoTZYxMNLWUQJyrVwtbZg5gBMjTezGAJN"

/-- A string that is not a multiaddress: it does not begin with a slash. -/
def addrBad : String := "not-a-multiaddr"

/-- The decoded form of `addrA`. -/
def infoA : AddrInfo :=
  { ID := "QmaCpDMGvV2BGHeYERUEnRQAwe3N8SzbUtfsmvsqQLuvuJ",
    Addrs := ["/ip4/104.131.131.82/tcp/4001"] }

/-- The decoded form of `addrB`. -/
def infoB : AddrInfo :=
  { ID := "QmNnooDu7bfjPFoTZYxMNLWUQJyrVwtbZg5gBMjTezGAJN",
    Addrs := ["/ip4/127.0.0.1/tcp/4001"] }

/-- A codec that knows the two addresses above: a string parses as a multiaddress
when it begins with a slash, and a multiaddress yields a peer when it is one of the
two known ones. -/
def codec : Codec where
  NewMultiaddr := fun s =>
    match s.data with
    | '/' :: _ => .ok s
    | _ => .error { Error := "failed to parse multiaddr: must begin with /" }
  AddrInfoFromP2pAddr := fun m =>
    if m = addrA then .ok infoA
    else if m = addrB then .ok infoB
    else .error { Error := "invalid p2p multiaddr" }
  durationString := durationString

/-- A world in which every call succeeds; every probe takes 1.5 ms. -/
def calm : World where
  makeNode := none
  Connect := fun _ _ => none
  Ping := fun _ _ => { RTT := 1500000, Error := none }
  Send := fun _ _ => none

/-- A world in which every probe fails with a timeout; all other calls succeed. -/
def unreachable : World where
  makeNode := none
  Connect := fun _ _ => none
  Ping := fun _ _ => { RTT := 0, Error := some { Error := "context deadline exceeded" } }
  Send := fun _ _ => none

/-- A world in which the subscriber has gone when the second response is sent. -/
def hangup : World where
  makeNode := none
  Connect := fun _ _ => none
  Ping := fun _ _ => { RTT := 1500000, Error := none }
  Send := fun n _ => if n = 1 then some { Error := "transport is closing" } else none

/-- A world in which the second connection attempt fails. -/
def refused : World where
  makeNode := none
  Connect := fun n _ => if n = 1 then some { Error := "dial backoff" } else none
  Ping := fun _ _ => { RTT := 1500000, Error := none }
  Send := fun _ _ => none

/-- A world in which the host has no connection to the probed peer and the subscriber
has gone: every probe fails and every `stream.Send` fails. -/
def gone : World where
  makeNode := none
  Connect := fun _ _ => none
  Ping := fun _ _ => { RTT := 0, Error := some { Error := "failed to dial" } }
  Send := fun _ _ => some { Error := "transport is closing" }

/-- Another session registers `addrA` during the first sleep of the handler: the
request is there at the third read of the registry (the connection step is read 0,
the first pass read 1, the second pass read 2). -/
def lateArrival : Nat → List Request :=
  fun k => if k = 2 then [{ Multiaddresses := [addrA] }] else []

/-- Other sessions register nothing but requests without addresses. -/
def emptyArrivals : Nat → List Request :=
  fun k => if k = 1 then [{ Multiaddresses := [] }] else []

end Example

/-! ## Basic facts on traces and on the flattened registry -/

theorem flatten_append (l1 l2 : List Request) :
    flatten (l1 ++ l2) = flatten l1 ++ flatten l2 := by
  induction l1 with
  | nil => rfl
  | cons r rs ih => simp [flatten, ih]

theorem connects_append (l1 l2 : List Event) :
    connects (l1 ++ l2) = connects l1 ++ connects l2 := by
  induction l1 with
  | nil => rfl
  | cons e rest ih => cases e <;> simp [connects, ih]

theorem probes_append (l1 l2 : List Event) :
    probes (l1 ++ l2) = probes l1 ++ probes l2 := by
  induction l1 with
  | nil => rfl
  | cons e rest ih => cases e <;> simp [probes, ih]

theorem responses_append (l1 l2 : List Event) :
    responses (l1 ++ l2) = responses l1 ++ responses l2 := by
  induction l1 with
  | nil => rfl
  | cons e rest ih => cases e <;> simp [responses, ih]

theorem sleeps_append (l1 l2 : List Event) :
    sleeps (l1 ++ l2) = sleeps l1 ++ sleeps l2 := by
  induction l1 with
  | nil => rfl
  | cons e rest ih => cases e <;> simp [sleeps, ih]

/-! ## The nested loops walk the flattened registry -/

theorem connectRequest_append (c : Codec) (w : World) (l1 l2 : List String)
    (tr : List Event) :
    connectRequest c w tr (l1 ++ l2) =
      match connectRequest c w tr l1 with
      | (tr1, some err) => (tr1, some err)
      | (tr1, none) => connectRequest c w tr1 l2 := by
  induction l1 generalizing tr with
  | nil => simp [connectRequest]
  | cons a rest ih =>
    simp only [List.cons_append, connectRequest]
    cases decode c a with
    | error err => rfl
    | ok p =>
      simp only
      cases w.Connect (connects tr).length p with
      | some err => rfl
      | none => exact ih _

theorem connectAll_eq (c : Codec) (w : World) (reqs : List Request) (tr : List Event) :
    connectAll c w tr reqs = connectRequest c w tr (flatten reqs) := by
  induction reqs generalizing tr with
  | nil => rfl
  | cons r rs ih =>
    rw [connectAll, flatten, connectRequest_append]
    rcases h : connectRequest c w tr r.Multiaddresses with ⟨tr1, _ | err⟩
    · exact ih tr1
    · rfl

theorem probeRequest_append (c : Codec) (w : World) (l1 l2 : List String)
    (tr : List Event) :
    probeRequest c w tr (l1 ++ l2) =
      match probeRequest c w tr l1 with
      | (tr1, some err) => (tr1, some err)
      | (tr1, none) => probeRequest c w tr1 l2 := by
  induction l1 generalizing tr with
  | nil => simp [probeRequest]
  | cons a rest ih =>
    simp only [List.cons_append, probeRequest]
    cases decode c a with
    | error err => rfl
    | ok p =>
      simp only
      cases w.Send (responses tr).length
          { Pingmessage := pingMessage c a none (w.Ping (probes tr).length p.ID) } with
      | some err => rfl
      | none => exact ih _

theorem probeAll_eq (c : Codec) (w : World) (reqs : List Request) (tr : List Event) :
    probeAll c w tr reqs = probeRequest c w tr (flatten reqs) := by
  induction reqs generalizing tr with
  | nil => rfl
  | cons r rs ih =>
    rw [probeAll, flatten, probeRequest_append]
    rcases h : probeRequest c w tr r.Multiaddresses with ⟨tr1, _ | err⟩
    · exact ih tr1
    · rfl

/-! ## The connection step -/

/-- The connection step neither probes nor publishes. -/
theorem connectRequest_quiet (c : Codec) (w : World) (l : List String) (tr : List Event) :
    probes (connectRequest c w tr l).1 = probes tr ∧
      responses (connectRequest c w tr l).1 = responses tr ∧
      sleeps (connectRequest c w tr l).1 = sleeps tr := by
  induction l generalizing tr with
  | nil => simp [connectRequest]
  | cons a rest ih =>
    simp only [connectRequest]
    cases decode c a with
    | error err => simp
    | ok p =>
      simp only
      cases w.Connect (connects tr).length p with
      | some err => simp [probes_append, responses_append, sleeps_append, probes, responses, sleeps]
      | none =>
        have h := ih (tr ++ [Event.connect p none])
        simpa [probes_append, responses_append, sleeps_append, probes, responses, sleeps] using h

/-- A connection step that runs to its end has decoded every address. -/
theorem connectRequest_ok_decodes (c : Codec) (w : World) (l : List String)
    (tr : List Event) (h : (connectRequest c w tr l).2 = none) :
    ∀ a ∈ l, ∃ p, decode c a = .ok p := by
  induction l generalizing tr with
  | nil => simp
  | cons a rest ih =>
    simp only [connectRequest] at h
    cases hd : decode c a with
    | error err => simp [hd] at h
    | ok p =>
      simp only [hd] at h
      cases hc : w.Connect (connects tr).length p with
      | some err => simp [hc] at h
      | none =>
        simp only [hc] at h
        intro b hb
        rcases List.mem_cons.mp hb with rfl | hb
        · exact ⟨p, hd⟩
        · exact ih _ h b hb

/-- When the address list holds an address that cannot be decoded, the connection
step returns an error, and it has called `h.Connect` only for addresses in front of
that address, in order. -/
theorem connectRequest_stops (c : Codec) (w : World) (a : String) (e0 : GoError)
    (l2 : List String) (hbad : decode c a = .error e0) (l1 : List String)
    (tr : List Event) :
    ∃ m cs e, m ≤ l1.length ∧
      (connectRequest c w tr (l1 ++ a :: l2)).2 = some e ∧
      connects (connectRequest c w tr (l1 ++ a :: l2)).1 = connects tr ++ cs ∧
      List.Forall₂ (fun x pe => decode c x = .ok pe.1) (l1.take m) cs := by
  induction l1 generalizing tr with
  | nil =>
    refine ⟨0, [], e0, le_refl _, ?_, ?_, ?_⟩ <;> simp [connectRequest, hbad]
  | cons b rest ih =>
    simp only [List.cons_append, connectRequest]
    cases hd : decode c b with
    | error err =>
      refine ⟨0, [], err, Nat.zero_le _, ?_, ?_, ?_⟩ <;> simp
    | ok p =>
      simp only
      cases hc : w.Connect (connects tr).length p with
      | some err =>
        refine ⟨1, [(p, some err)], err, by simp, ?_, ?_, ?_⟩
        · simp
        · simp [connects_append, connects]
        · simp [hd]
      | none =>
        obtain ⟨m, cs, e, hm, hret, hcs, hall⟩ := ih (tr ++ [Event.connect p none])
        simp only [List.append_eq]
        refine ⟨m + 1, (p, none) :: cs, e, by simpa using hm, hret, ?_, ?_⟩
        · rw [hcs]; simp [connects_append, connects]
        · simpa [hd] using hall

/-- As long as the addresses decode and the connections succeed, the connection step
records one successful connection per address and goes on. -/
theorem connectRequest_run (c : Codec) (w : World) (ps : List AddrInfo) :
    ∀ (l1 l2 : List String) (tr : List Event),
      l1.map (decode c) = ps.map Except.ok →
      (∀ j (hj : j < ps.length), w.Connect ((connects tr).length + j) ps[j] = none) →
      connectRequest c w tr (l1 ++ l2) =
        connectRequest c w (tr ++ ps.map (fun p => Event.connect p none)) l2 := by
  induction ps with
  | nil =>
    intro l1 l2 tr hdec _
    have : l1 = [] := by simpa using hdec
    subst this
    simp
  | cons p ps ih =>
    intro l1 l2 tr hdec hok
    cases l1 with
    | nil => simp at hdec
    | cons a rest =>
      simp only [List.map_cons, List.cons.injEq] at hdec
      obtain ⟨hd, hrest⟩ := hdec
      have h0 := hok 0 (by simp)
      simp only [Nat.add_zero, List.getElem_cons_zero] at h0
      simp only [List.cons_append, connectRequest, hd, h0, List.append_eq]
      rw [ih rest l2 (tr ++ [Event.connect p none]) hrest]
      · simp
      · intro j hj
        have := hok (j + 1) (by simpa using hj)
        simpa [connects_append, connects, Nat.add_assoc, Nat.add_comm 1 j] using this

/-! ## The handler: registration and the connection step -/

theorem GetNodesLiveness_srv (c : Codec) (w : World) (s : server) (req : Request)
    (fuel : Nat) :
    (GetNodesLiveness c w s req fuel).srv.multiaddresses = s.multiaddresses ++ [req] := by
  unfold GetNodesLiveness
  cases w.makeNode with
  | some err => rfl
  | none =>
    simp only
    rcases connectAll c w [] (s.multiaddresses ++ [req]) with ⟨tr, _ | err⟩
    · simp only
      rcases cycles c w (s.multiaddresses ++ [req]) fuel tr with ⟨tr1, _ | err1⟩ <;> rfl
    · rfl

/-- The handler's result when the connection step returns an error. -/
theorem GetNodesLiveness_connect_error (c : Codec) (w : World) (s : server)
    (req : Request) (fuel : Nat) (tr : List Event) (e : GoError)
    (hnode : w.makeNode = none)
    (h : connectRequest c w [] (flatten (s.multiaddresses ++ [req])) = (tr, some e)) :
    (GetNodesLiveness c w s req fuel).trace = tr ++ [Event.close] ∧
      (GetNodesLiveness c w s req fuel).ret = some e := by
  unfold GetNodesLiveness
  simp only [hnode, connectAll_eq, h, and_self]

/-- The handler's result when the connection step succeeds. -/
theorem GetNodesLiveness_connected (c : Codec) (w : World) (s : server)
    (req : Request) (fuel : Nat) (tr : List Event)
    (hnode : w.makeNode = none)
    (h : connectRequest c w [] (flatten (s.multiaddresses ++ [req])) = (tr, none)) :
    ((cycles c w (s.multiaddresses ++ [req]) fuel tr).2 = none →
        (GetNodesLiveness c w s req fuel).trace =
          (cycles c w (s.multiaddresses ++ [req]) fuel tr).1 ∧
        (GetNodesLiveness c w s req fuel).ret = none) ∧
      (∀ e, (cycles c w (s.multiaddresses ++ [req]) fuel tr).2 = some e →
        (GetNodesLiveness c w s req fuel).trace =
          (cycles c w (s.multiaddresses ++ [req]) fuel tr).1 ++ [Event.close] ∧
        (GetNodesLiveness c w s req fuel).ret = some e) := by
  unfold GetNodesLiveness
  simp only [hnode, connectAll_eq, h]
  rcases cycles c w (s.multiaddresses ++ [req]) fuel tr with ⟨tr1, _ | err1⟩ <;> simp

/-- A registry that holds an address that cannot be decoded makes the handler return
an error from the connection step: no probe, no response, and connections only to
addresses in front of that address. -/
theorem GetNodesLiveness_poisoned (c : Codec) (w : World) (s : server) (req : Request)
    (fuel : Nat) (l1 l2 : List String) (a : String) (e0 : GoError)
    (hflat : flatten (s.multiaddresses ++ [req]) = l1 ++ a :: l2)
    (hbad : decode c a = .error e0) :
    (∃ e, (GetNodesLiveness c w s req fuel).ret = some e) ∧
      (∃ m, m ≤ l1.length ∧
        List.Forall₂ (fun x pe => decode c x = .ok pe.1) (l1.take m)
          (connects (GetNodesLiveness c w s req fuel).trace)) ∧
      probes (GetNodesLiveness c w s req fuel).trace = [] ∧
      responses (GetNodesLiveness c w s req fuel).trace = [] := by
  cases hnode : w.makeNode with
  | some err =>
    have : GetNodesLiveness c w s req fuel =
        { srv := { multiaddresses := s.multiaddresses ++ [req] }, trace := [],
          ret := some err } := by
      unfold GetNodesLiveness; simp only [hnode]
    rw [this]
    exact ⟨⟨err, rfl⟩, ⟨0, Nat.zero_le _, by simp [connects]⟩, rfl, rfl⟩
  | none =>
    obtain ⟨m, cs, e, hm, hret, hcs, hall⟩ := connectRequest_stops c w a e0 l2 hbad l1 []
    have hq := connectRequest_quiet c w (l1 ++ a :: l2) []
    rcases hres : connectRequest c w [] (l1 ++ a :: l2) with ⟨tr, r⟩
    rw [hres] at hret hcs hq
    simp only at hret hcs hq
    subst hret
    obtain ⟨htr, hr⟩ := GetNodesLiveness_connect_error c w s req fuel tr e hnode
      (by rw [hflat]; exact hres)
    rw [htr, hr]
    refine ⟨⟨e, rfl⟩, ⟨m, hm, ?_⟩, ?_, ?_⟩
    · simpa [connects_append, connects, hcs] using hall
    · simpa [probes_append, probes] using hq.1
    · simpa [responses_append, responses] using hq.2.1

/-! ## Every probe is followed by its response -/

theorem Paired_nil (c : Codec) (flat : List String) : Paired c flat [] := by
  intro l1 l2 a id res h
  simp at h

theorem Paired_append {c : Codec} {flat : List String} {t1 t2 : List Event}
    (h1 : Paired c flat t1) (h2 : Paired c flat t2) : Paired c flat (t1 ++ t2) := by
  intro l1 l2 a id res h
  rcases List.append_eq_append_iff.mp h with ⟨a1, _, hb⟩ | ⟨c1, ha, hb⟩
  · exact h2 a1 l2 a id res hb
  · cases c1 with
    | nil =>
      simp only [List.nil_append] at hb
      exact h2 [] l2 a id res (by simpa using hb.symm)
    | cons x c2 =>
      simp only [List.cons_append, List.cons.injEq] at hb
      obtain ⟨hx, hl2⟩ := hb
      subst hx
      obtain ⟨hmem, hp, err, l3, hl3⟩ := h1 l1 c2 a id res ha
      refine ⟨hmem, hp, err, l3 ++ t2, ?_⟩
      rw [hl2, hl3]; rfl

theorem Paired_single {c : Codec} {flat : List String} {e : Event}
    (he : ∀ a id res, e ≠ Event.ping a id res) : Paired c flat [e] := by
  intro l1 l2 a id res h
  cases l1 with
  | nil =>
    simp only [List.nil_append, List.cons.injEq] at h
    exact absurd h.1 (he a id res)
  | cons x rest =>
    simp only [List.cons_append, List.cons.injEq] at h
    have := h.2
    simp at this

theorem Paired_pair {c : Codec} {flat : List String} {a : String} {p : AddrInfo}
    (res : PingResult) (err : Option GoError) (ha : a ∈ flat) (hp : decode c a = .ok p) :
    Paired c flat
      [Event.ping a p.ID res, Event.send { Pingmessage := pingMessage c a none res } err] := by
  intro l1 l2 b id res1 h
  cases l1 with
  | nil =>
    simp only [List.nil_append, List.cons.injEq, Event.ping.injEq] at h
    obtain ⟨⟨hb, hid, hres⟩, hl2⟩ := h
    subst hb hid hres
    exact ⟨ha, ⟨p, hp, rfl⟩, err, [], hl2.symm⟩
  | cons x rest =>
    simp only [List.cons_append, List.cons.injEq] at h
    obtain ⟨_, h2⟩ := h
    cases rest with
    | nil => simp at h2
    | cons y rest2 =>
      simp only [List.cons_append, List.cons.injEq] at h2
      have := h2.2
      simp at this

theorem connectRequest_paired (c : Codec) (w : World) (flat : List String)
    (l : List String) (tr : List Event) (h : Paired c flat tr) :
    Paired c flat (connectRequest c w tr l).1 := by
  induction l generalizing tr with
  | nil => simpa [connectRequest] using h
  | cons a rest ih =>
    simp only [connectRequest]
    cases decode c a with
    | error err => exact h
    | ok p =>
      simp only
      cases w.Connect (connects tr).length p with
      | some err => exact Paired_append h (Paired_single (by intro a id res; simp))
      | none => exact ih _ (Paired_append h (Paired_single (by intro a id res; simp)))

theorem probeRequest_paired (c : Codec) (w : World) (flat : List String)
    (l : List String) (tr : List Event) (hl : ∀ a ∈ l, a ∈ flat)
    (h : Paired c flat tr) :
    Paired c flat (probeRequest c w tr l).1 := by
  induction l generalizing tr with
  | nil => simpa [probeRequest] using h
  | cons a rest ih =>
    simp only [probeRequest]
    cases hd : decode c a with
    | error err => exact h
    | ok p =>
      simp only
      have ha : a ∈ flat := hl a (List.mem_cons_self _ _)
      cases w.Send (responses tr).length
          { Pingmessage := pingMessage c a none (w.Ping (probes tr).length p.ID) } with
      | some err => exact Paired_append h (Paired_pair _ _ ha hd)
      | none =>
        exact ih _ (fun b hb => hl b (List.mem_cons_of_mem _ hb))
          (Paired_append h (Paired_pair _ _ ha hd))

theorem cycles_paired (c : Codec) (w : World) (reqs : List Request) (n : Nat)
    (tr : List Event) (h : Paired c (flatten reqs) tr) :
    Paired c (flatten reqs) (cycles c w reqs n tr).1 := by
  induction n generalizing tr with
  | zero => simpa [cycles] using h
  | succ n ih =>
    simp only [cycles]
    have hp := probeRequest_paired c w (flatten reqs) (flatten reqs) tr (fun _ ha => ha) h
    rw [← probeAll_eq] at hp
    rcases hres : probeAll c w tr reqs with ⟨tr1, _ | err⟩
    · rw [hres] at hp
      exact ih _ (Paired_append hp (Paired_single (by intro a id res; simp)))
    · rw [hres] at hp
      exact hp

theorem GetNodesLiveness_paired (c : Codec) (w : World) (s : server) (req : Request)
    (fuel : Nat) :
    Paired c (flatten (s.multiaddresses ++ [req])) (GetNodesLiveness c w s req fuel).trace := by
  unfold GetNodesLiveness
  cases w.makeNode with
  | some err => exact Paired_nil _ _
  | none =>
    simp only
    have h1 := connectRequest_paired c w (flatten (s.multiaddresses ++ [req]))
      (flatten (s.multiaddresses ++ [req])) [] (Paired_nil _ _)
    rw [← connectAll_eq] at h1
    rcases hres : connectAll c w [] (s.multiaddresses ++ [req]) with ⟨tr, _ | err⟩
    · rw [hres] at h1
      simp only
      have h2 := cycles_paired c w (s.multiaddresses ++ [req]) fuel tr h1
      rcases hcyc : cycles c w (s.multiaddresses ++ [req]) fuel tr with ⟨tr1, _ | err1⟩
      · rw [hcyc] at h2; exact h2
      · rw [hcyc] at h2
        exact Paired_append h2 (Paired_single (by intro a id res; simp))
    · rw [hres] at h1
      exact Paired_append h1 (Paired_single (by intro a id res; simp))

/-! ## One pass over a registry whose addresses decode -/

/-- A pass over addresses that all decode, whose `stream.Send` calls all succeed,
runs to its end; it makes one probe and one response per address, in order. -/
theorem probeRequest_pass (c : Codec) (w : World) (l : List String) (tr : List Event)
    (hdec : ∀ a ∈ l, ∃ p, decode c a = .ok p)
    (hsend : ∀ j, j < l.length → ∀ r, w.Send ((responses tr).length + j) r = none) :
    ∃ evs, probeRequest c w tr l = (tr ++ evs, none) ∧
      evs.length = 2 * l.length ∧
      (probes evs).length = l.length ∧ (responses evs).length = l.length ∧
      connects evs = [] ∧ sleeps evs = [] ∧
      ∀ i (hi : i < l.length), ∃ p, decode c l[i] = .ok p ∧
        (probes evs)[i]? = some (l[i], p.ID, w.Ping ((probes tr).length + i) p.ID) ∧
        (responses evs)[i]? =
          some ({ Pingmessage := "pinged " ++ l[i] ++ " in " ++
            c.durationString (w.Ping ((probes tr).length + i) p.ID).RTT }, none) := by
  induction l generalizing tr with
  | nil =>
    exact ⟨[], by simp [probeRequest], rfl, rfl, rfl, rfl, rfl, fun i hi => by simp at hi⟩
  | cons a rest ih =>
    obtain ⟨p, hd⟩ := hdec a (List.mem_cons_self _ _)
    have hs := hsend 0 (by simp)
      { Pingmessage := pingMessage c a none (w.Ping (probes tr).length p.ID) }
    simp only [Nat.add_zero] at hs
    obtain ⟨evs, hrun, hlen, hpl, hrl, hcn, hsl, hidx⟩ :=
      ih (tr ++ [Event.ping a p.ID (w.Ping (probes tr).length p.ID),
          Event.send { Pingmessage := pingMessage c a none (w.Ping (probes tr).length p.ID) }
            none])
        (fun b hb => hdec b (List.mem_cons_of_mem _ hb))
        (by
          intro j hj r
          have := hsend (j + 1) (by simpa using hj) r
          simpa [responses_append, responses, Nat.add_assoc, Nat.add_comm 1 j] using this)
    refine ⟨Event.ping a p.ID (w.Ping (probes tr).length p.ID) ::
        Event.send { Pingmessage := pingMessage c a none (w.Ping (probes tr).length p.ID) }
          none :: evs, ?_, ?_, ?_, ?_, ?_, ?_, ?_⟩
    · simp only [probeRequest, hd, hs, hrun]
      simp
    · simp [hlen]; omega
    · simp [probes, hpl]
    · simp [responses, hrl]
    · simpa [connects] using hcn
    · simpa [sleeps] using hsl
    · intro i hi
      cases i with
      | zero =>
        refine ⟨p, by simpa using hd, ?_, ?_⟩
        · simp [probes]
        · simp [responses, pingMessage]
      | succ i =>
        obtain ⟨q, hq, hpi, hri⟩ := hidx i (by simpa using hi)
        refine ⟨q, by simpa using hq, ?_, ?_⟩
        · simpa [probes, probes_append, Nat.add_assoc, Nat.add_comm 1 i] using hpi
        · simpa [responses, probes, probes_append, Nat.add_assoc, Nat.add_comm 1 i] using hri

/-! ## Failed publishes -/

theorem Clean_nil : Clean [] := by
  intro r e h
  simp at h

theorem Clean_append {t1 t2 : List Event} (h1 : Clean t1) (h2 : Clean t2) :
    Clean (t1 ++ t2) := by
  intro r e h
  rcases List.mem_append.mp h with h | h
  · exact h1 r e h
  · exact h2 r e h

theorem connectRequest_clean (c : Codec) (w : World) (l : List String) (tr : List Event)
    (h : Clean tr) : Clean (connectRequest c w tr l).1 := by
  induction l generalizing tr with
  | nil => simpa [connectRequest] using h
  | cons a rest ih =>
    simp only [connectRequest]
    cases decode c a with
    | error err => exact h
    | ok p =>
      simp only
      cases w.Connect (connects tr).length p with
      | some err => exact Clean_append h (by intro r e hm; simp at hm)
      | none => exact ih _ (Clean_append h (by intro r e hm; simp at hm))

/-- A pass over addresses that all decode either runs to its end without a failed
publish, or stops right after the first failed publish and returns its error. -/
theorem probeRequest_cases (c : Codec) (w : World) (l : List String) (tr : List Event)
    (hdec : ∀ a ∈ l, ∃ p, decode c a = .ok p) (hclean : Clean tr) :
    ((probeRequest c w tr l).2 = none ∧ Clean (probeRequest c w tr l).1) ∨
      ∃ pre r e, probeRequest c w tr l = (pre ++ [Event.send r (some e)], some e) ∧
        Clean pre := by
  induction l generalizing tr with
  | nil => left; simpa [probeRequest] using hclean
  | cons a rest ih =>
    obtain ⟨p, hd⟩ := hdec a (List.mem_cons_self _ _)
    simp only [probeRequest, hd]
    cases hs : w.Send (responses tr).length
        { Pingmessage := pingMessage c a none (w.Ping (probes tr).length p.ID) } with
    | some err =>
      right
      refine ⟨tr ++ [Event.ping a p.ID (w.Ping (probes tr).length p.ID)],
        { Pingmessage := pingMessage c a none (w.Ping (probes tr).length p.ID) },
        err, ?_, ?_⟩
      · simp
      · exact Clean_append hclean (by intro r e hm; simp at hm)
    | none =>
      exact ih _ (fun b hb => hdec b (List.mem_cons_of_mem _ hb))
        (Clean_append hclean (by intro r e hm; simp at hm))

theorem cycles_cases (c : Codec) (w : World) (reqs : List Request) (n : Nat)
    (tr : List Event) (hdec : ∀ a ∈ flatten reqs, ∃ p, decode c a = .ok p)
    (hclean : Clean tr) :
    ((cycles c w reqs n tr).2 = none ∧ Clean (cycles c w reqs n tr).1) ∨
      ∃ pre r e, cycles c w reqs n tr = (pre ++ [Event.send r (some e)], some e) ∧
        Clean pre := by
  induction n generalizing tr with
  | zero => left; simpa [cycles] using hclean
  | succ n ih =>
    simp only [cycles, probeAll_eq]
    rcases probeRequest_cases c w (flatten reqs) tr hdec hclean with
      ⟨hnone, hc⟩ | ⟨pre, r, e, hrun, hc⟩
    · rcases hres : probeRequest c w tr (flatten reqs) with ⟨tr1, ret⟩
      rw [hres] at hnone hc
      simp only at hnone hc
      subst hnone
      exact ih _ (Clean_append hc (by intro r e hm; simp at hm))
    · right
      exact ⟨pre, r, e, by rw [hrun], hc⟩

/-! ## Progress of the loop -/

/-- If the `n`-th publish fails whatever is sent, a pass that runs to its end has
not reached it. -/
theorem probeRequest_count (c : Codec) (w : World) (n : Nat)
    (hfail : ∀ r, w.Send n r ≠ none) (l : List String) (tr : List Event)
    (hle : (responses tr).length ≤ n)
    (hrun : (probeRequest c w tr l).2 = none) :
    (responses (probeRequest c w tr l).1).length = (responses tr).length + l.length ∧
      (responses (probeRequest c w tr l).1).length ≤ n := by
  induction l generalizing tr with
  | nil => simpa [probeRequest] using hle
  | cons a rest ih =>
    simp only [probeRequest] at hrun ⊢
    cases hd : decode c a with
    | error err => simp [hd] at hrun
    | ok p =>
      simp only [hd] at hrun ⊢
      cases hs : w.Send (responses tr).length
          { Pingmessage := pingMessage c a none (w.Ping (probes tr).length p.ID) } with
      | some err => simp [hs] at hrun
      | none =>
        simp only [hs] at hrun ⊢
        have hlt : (responses tr).length < n := by
          rcases Nat.lt_or_ge (responses tr).length n with h | h
          · exact h
          · have : (responses tr).length = n := Nat.le_antisymm hle h
            rw [this] at hs
            exact absurd hs (hfail _)
        have := ih _ (by simpa [responses_append, responses] using hlt) hrun
        simp only [responses_append, responses, List.length_append, List.length_cons,
          List.length_nil, List.length_singleton] at this ⊢
        omega

theorem cycles_count (c : Codec) (w : World) (reqs : List Request) (n : Nat)
    (hfail : ∀ r, w.Send n r ≠ none) (k : Nat) (tr : List Event)
    (hle : (responses tr).length ≤ n)
    (hrun : (cycles c w reqs k tr).2 = none) :
    (responses (cycles c w reqs k tr).1).length =
        (responses tr).length + k * (flatten reqs).length ∧
      (responses (cycles c w reqs k tr).1).length ≤ n := by
  induction k generalizing tr with
  | zero => simpa [cycles] using hle
  | succ k ih =>
    simp only [cycles, probeAll_eq] at hrun ⊢
    rcases hres : probeRequest c w tr (flatten reqs) with ⟨tr1, _ | err⟩
    · rw [hres] at hrun
      simp only [hres] at hrun ⊢
      have hp := probeRequest_count c w n hfail (flatten reqs) tr hle (by rw [hres])
      rw [hres] at hp
      simp only at hp
      have := ih (tr1 ++ [Event.sleep (2 * Second)])
        (by simpa [responses_append, responses] using hp.2) hrun
      simp only [responses_append, responses, List.append_nil] at this
      refine ⟨?_, this.2⟩
      rw [this.1, hp.1, Nat.succ_mul]
      omega
    · rw [hres] at hrun
      simp at hrun

/-- Once the loop has returned, more passes change nothing. -/
theorem cycles_stable (c : Codec) (w : World) (reqs : List Request) (n : Nat)
    (tr tr1 : List Event) (e : GoError) (h : cycles c w reqs n tr = (tr1, some e)) :
    cycles c w reqs (n + 1) tr = (tr1, some e) := by
  induction n generalizing tr with
  | zero => simp [cycles] at h
  | succ n ih =>
    rw [cycles] at h ⊢
    rcases hres : probeAll c w tr reqs with ⟨tr2, _ | err⟩
    · rw [hres] at h
      simp only at h ⊢
      exact ih _ h
    · rw [hres] at h
      exact h

/-- With an empty registry each pass is a single sleep. -/
theorem cycles_empty (c : Codec) (w : World) (reqs : List Request)
    (hempty : flatten reqs = []) (n : Nat) (tr : List Event) :
    cycles c w reqs n tr = (tr ++ List.replicate n (Event.sleep (2 * Second)), none) := by
  induction n generalizing tr with
  | zero => simp [cycles]
  | succ n ih =>
    simp only [cycles, probeAll_eq, hempty, probeRequest]
    rw [ih]
    simp [List.replicate_succ]

/-! ## Further facts used by the main results -/

theorem mem_flatten {a : String} {reqs : List Request} :
    a ∈ flatten reqs ↔ ∃ r ∈ reqs, a ∈ r.Multiaddresses := by
  induction reqs with
  | nil => simp [flatten]
  | cons r rs ih => simp [flatten, ih]

theorem afterCalls_keeps (c : Codec) (calls : List (World × Request × Nat)) (s : server)
    (r : Request) (hr : r ∈ s.multiaddresses) :
    r ∈ (afterCalls c s calls).multiaddresses := by
  induction calls generalizing s with
  | nil => exact hr
  | cons call rest ih =>
    obtain ⟨w, req, fuel⟩ := call
    simp only [afterCalls]
    apply ih
    rw [GetNodesLiveness_srv]
    exact List.mem_append_left _ hr

theorem connects_map_connect (ps : List AddrInfo) :
    connects (ps.map (fun q => Event.connect q none)) = ps.map (fun q => (q, none)) := by
  induction ps with
  | nil => rfl
  | cons p ps ih => simp [connects, ih]

theorem probes_map_connect (ps : List AddrInfo) :
    probes (ps.map (fun q => Event.connect q none)) = [] := by
  induction ps with
  | nil => rfl
  | cons p ps ih => simp [probes, ih]

theorem responses_map_connect (ps : List AddrInfo) :
    responses (ps.map (fun q => Event.connect q none)) = [] := by
  induction ps with
  | nil => rfl
  | cons p ps ih => simp [responses, ih]

theorem replicate_sleep_observed (n : Nat) (d : Int) :
    connects (List.replicate n (Event.sleep d)) = [] ∧
      probes (List.replicate n (Event.sleep d)) = [] ∧
      responses (List.replicate n (Event.sleep d)) = [] ∧
      sleeps (List.replicate n (Event.sleep d)) = List.replicate n d := by
  induction n with
  | zero => exact ⟨rfl, rfl, rfl, rfl⟩
  | succ k ih =>
    simp only [List.replicate_succ, connects, probes, responses, sleeps]
    exact ⟨ih.1, ih.2.1, ih.2.2.1, by rw [ih.2.2.2]⟩

/-! ## The handler among other sessions: helper facts -/

/-- When nothing arrives, the loop among other sessions is the loop running alone. -/
theorem cyclesLive_alone (c : Codec) (w : World) (n k : Nat) (regs : List Request)
    (tr : List Event) :
    cyclesLive c w (fun _ => []) k n regs tr = (regs, cycles c w regs n tr) := by
  induction n generalizing k tr with
  | zero => rfl
  | succ n ih =>
    simp only [cyclesLive, cycles, List.append_nil]
    rcases probeAll c w tr regs with ⟨tr1, _ | err⟩
    · exact ih _ _
    · rfl

/-- When nothing arrives, the handler among other sessions is the handler running
alone. -/
theorem GetNodesLivenessLive_alone (c : Codec) (w : World) (s : server) (req : Request)
    (fuel : Nat) :
    GetNodesLivenessLive c w (fun _ => []) s req fuel = GetNodesLiveness c w s req fuel := by
  unfold GetNodesLivenessLive GetNodesLiveness
  cases w.makeNode with
  | some err => rfl
  | none =>
    simp only [List.append_nil]
    rcases connectAll c w [] (s.multiaddresses ++ [req]) with ⟨tr, _ | err⟩
    · simp only [cyclesLive_alone]
      rcases cycles c w (s.multiaddresses ++ [req]) fuel tr with ⟨tr1, _ | err1⟩ <;> rfl
    · rfl

/-- While the registry stays empty, each pass is a single sleep. -/
theorem cyclesLive_empty (c : Codec) (w : World) (arrivals : Nat → List Request)
    (hstays : ∀ k, flatten (arrivals k) = []) (n k : Nat) (regs : List Request)
    (tr : List Event) (hempty : flatten regs = []) :
    ∃ regs1, cyclesLive c w arrivals k n regs tr =
      (regs1, tr ++ List.replicate n (Event.sleep (2 * Second)), none) := by
  induction n generalizing k regs tr with
  | zero => exact ⟨regs, by simp [cyclesLive]⟩
  | succ n ih =>
    have h1 : flatten (regs ++ arrivals k) = [] := by
      rw [flatten_append, hempty, hstays]; rfl
    obtain ⟨regs1, hrec⟩ := ih (k + 1) (regs ++ arrivals k)
      (tr ++ [Event.sleep (2 * Second)]) h1
    refine ⟨regs1, ?_⟩
    simp only [cyclesLive, probeAll_eq, h1, probeRequest, hrec]
    simp [List.replicate_succ]

/-! ## Main results -/

/-- C1 (as amended): when some address of the request cannot be decoded, the handler
returns an error, and the registry after the call is the registry before the call
followed by the request: the rejected request stays recorded. -/
theorem rejected_request_stays_recorded (c : Codec) (w : World) (s : server)
    (req : Request) (fuel : Nat) (a : String) (e0 : GoError)
    (ha : a ∈ req.Multiaddresses) (hbad : decode c a = .error e0) :
    (∃ e, (GetNodesLiveness c w s req fuel).ret = some e) ∧
      (GetNodesLiveness c w s req fuel).srv.multiaddresses = s.multiaddresses ++ [req] := by
  refine ⟨?_, GetNodesLiveness_srv c w s req fuel⟩
  have hmem : a ∈ flatten (s.multiaddresses ++ [req]) :=
    mem_flatten.mpr ⟨req, by simp, ha⟩
  obtain ⟨l1, l2, hflat⟩ := List.append_of_mem hmem
  exact (GetNodesLiveness_poisoned c w s req fuel l1 l2 a e0 hflat hbad).1

/-- C1, worked example of the amended statement: a registry holding one request and a
request with a well-formed and a malformed address. -/
theorem rejected_request_stays_recorded_example :
    Example.addrBad ∈ (Request.mk [Example.addrB, Example.addrBad]).Multiaddresses ∧
      decode Example.codec Example.addrBad =
        .error { Error := "failed to parse multiaddr: must begin with /" } ∧
      (∃ e, (GetNodesLiveness Example.codec Example.calm
          { multiaddresses := [{ Multiaddresses := [Example.addrA] }] }
          { Multiaddresses := [Example.addrB, Example.addrBad] } 3).ret = some e) ∧
      (GetNodesLiveness Example.codec Example.calm
          { multiaddresses := [{ Multiaddresses := [Example.addrA] }] }
          { Multiaddresses := [Example.addrB, Example.addrBad] } 3).srv.multiaddresses =
        [{ Multiaddresses := [Example.addrA] }] ++
          [{ Multiaddresses := [Example.addrB, Example.addrBad] }] :=
  ⟨by decide, rfl,
    rejected_request_stays_recorded Example.codec Example.calm
      { multiaddresses := [{ Multiaddresses := [Example.addrA] }] }
      { Multiaddresses := [Example.addrB, Example.addrBad] } 3 Example.addrBad
      { Error := "failed to parse multiaddr: must begin with /" } (by decide) rfl⟩

/-- C1 as stated fails: on a fresh server, the request whose only address is malformed
is rejected with an error, and yet the registry is no longer the empty registry it was
before the call. -/
theorem registration_not_all_or_nothing :
    (∃ a ∈ (Request.mk [Example.addrBad]).Multiaddresses,
        ∃ e, decode Example.codec a = .error e) ∧
      (GetNodesLiveness Example.codec Example.calm { multiaddresses := [] }
          { Multiaddresses := [Example.addrBad] } 0).ret =
        some { Error := "failed to parse multiaddr: must begin with /" } ∧
      (GetNodesLiveness Example.codec Example.calm { multiaddresses := [] }
          { Multiaddresses := [Example.addrBad] } 0).srv.multiaddresses =
        [{ Multiaddresses := [Example.addrBad] }] ∧
      (GetNodesLiveness Example.codec Example.calm { multiaddresses := [] }
          { Multiaddresses := [Example.addrBad] } 0).srv ≠ { multiaddresses := [] } := by
  refine ⟨⟨Example.addrBad, by decide,
    { Error := "failed to parse multiaddr: must begin with /" }, rfl⟩,
    by decide, by decide, by decide⟩

/-- C2 (the code departs from the claim): a probe that fails with a timeout is
published in the success form, with the zero round-trip time of the failed result,
and not in the failure form. -/
theorem failed_probe_published_as_success :
    (GetNodesLiveness Example.codec Example.unreachable { multiaddresses := [] }
        { Multiaddresses := [Example.addrA] } 1).trace =
      [Event.connect Example.infoA none,
        Event.ping Example.addrA Example.infoA.ID
          { RTT := 0, Error := some { Error := "context deadline exceeded" } },
        Event.send { Pingmessage := "pinged " ++ Example.addrA ++ " in 0s" } none,
        Event.sleep (2 * Second)] ∧
      "pinged " ++ Example.addrA ++ " in 0s" ≠
        "pinged " ++ Example.addrA ++ " errored: " ++ "context deadline exceeded" := by
  refine ⟨by decide, by decide⟩

/-- C4: the handler records the request at the end of the shared registry, so the
flattened registry after the call is the flattened registry before the call followed by
the addresses of the request, in their order, duplicates kept. -/
theorem registration_appends_in_order (c : Codec) (w : World) (s : server)
    (req : Request) (fuel : Nat) :
    (GetNodesLiveness c w s req fuel).srv.multiaddresses = s.multiaddresses ++ [req] ∧
      flatten (GetNodesLiveness c w s req fuel).srv.multiaddresses =
        flatten s.multiaddresses ++ req.Multiaddresses := by
  refine ⟨GetNodesLiveness_srv c w s req fuel, ?_⟩
  rw [GetNodesLiveness_srv, flatten_append]
  simp [flatten]

/-- C5: when the addresses `l1` in front of flattened position `i = l1.length` decode
and connect, the address at position `i` decodes, and its `h.Connect` fails with `e`,
the handler returns `e`; its trace is the `i` successful connections, the failed one
and the deferred close, so no connection is attempted for a later position, no probe
is issued and no response is published. -/
theorem first_connect_failure_is_fatal (c : Codec) (w : World) (s : server)
    (req : Request) (fuel : Nat) (l1 l2 : List String) (a : String)
    (ps : List AddrInfo) (p : AddrInfo) (e : GoError)
    (hnode : w.makeNode = none)
    (hflat : flatten (s.multiaddresses ++ [req]) = l1 ++ a :: l2)
    (hl1 : l1.map (decode c) = ps.map Except.ok)
    (ha : decode c a = .ok p)
    (hok : ∀ j (hj : j < ps.length), w.Connect j ps[j] = none)
    (hfail : w.Connect l1.length p = some e) :
    (GetNodesLiveness c w s req fuel).ret = some e ∧
      (GetNodesLiveness c w s req fuel).trace =
        ps.map (fun q => Event.connect q none) ++
          [Event.connect p (some e), Event.close] ∧
      connects (GetNodesLiveness c w s req fuel).trace =
        ps.map (fun q => (q, none)) ++ [(p, some e)] ∧
      (connects (GetNodesLiveness c w s req fuel).trace).length = l1.length + 1 ∧
      probes (GetNodesLiveness c w s req fuel).trace = [] ∧
      responses (GetNodesLiveness c w s req fuel).trace = [] := by
  have hlen : ps.length = l1.length := by
    have := congrArg List.length hl1
    simpa using this.symm
  have hrun : connectRequest c w [] (flatten (s.multiaddresses ++ [req])) =
      (ps.map (fun q => Event.connect q none) ++ [Event.connect p (some e)], some e) := by
    rw [hflat, connectRequest_run c w ps l1 (a :: l2) [] hl1
      (by intro j hj; simpa [connects] using hok j hj)]
    simp only [List.nil_append, connectRequest, ha, connects_map_connect, List.length_map,
      hlen, hfail]
  obtain ⟨htr, hret⟩ := GetNodesLiveness_connect_error c w s req fuel _ e hnode hrun
  rw [htr, hret]
  refine ⟨rfl, by simp, ?_, ?_, ?_, ?_⟩
  · simp [connects_append, connects, connects_map_connect]
  · simp [connects_append, connects, connects_map_connect, hlen]
  · simp [probes_append, probes, probes_map_connect]
  · simp [responses_append, responses, responses_map_connect]

/-- C5, worked example: two registered addresses, the second connection is refused. -/
theorem first_connect_failure_is_fatal_example :
    (GetNodesLiveness Example.codec Example.refused { multiaddresses := [] }
        { Multiaddresses := [Example.addrA, Example.addrB, Example.addrA] } 3).ret =
        some { Error := "dial backoff" } ∧
      (GetNodesLiveness Example.codec Example.refused { multiaddresses := [] }
        { Multiaddresses := [Example.addrA, Example.addrB, Example.addrA] } 3).trace =
        [Event.connect Example.infoA none,
          Event.connect Example.infoB (some { Error := "dial backoff" }), Event.close] :=
  have h := first_connect_failure_is_fatal Example.codec Example.refused
    { multiaddresses := [] }
    { Multiaddresses := [Example.addrA, Example.addrB, Example.addrA] } 3
    [Example.addrA] [Example.addrA] Example.addrB [Example.infoA] Example.infoB
    { Error := "dial backoff" } rfl rfl rfl rfl
    (by intro j hj; have hj0 : j = 0 := by simpa using hj
        subst hj0; rfl)
    rfl
  ⟨h.1, h.2.1⟩

/-- C6 (as amended): when the request holds an address `a` that cannot be decoded, the
handler returns an error; `h.Connect` is called only for addresses of the flattened
registry (earlier registrations, then the request) in front of `a`, in registry order,
each decoded address once; no probe is issued and no response is published. -/
theorem malformed_address_stops_connecting (c : Codec) (w : World) (s : server)
    (req : Request) (fuel : Nat) (r1 r2 : List String) (a : String) (e0 : GoError)
    (hreq : req.Multiaddresses = r1 ++ a :: r2) (hbad : decode c a = .error e0) :
    (∃ e, (GetNodesLiveness c w s req fuel).ret = some e) ∧
      (∃ m, m ≤ (flatten s.multiaddresses ++ r1).length ∧
        List.Forall₂ (fun x pe => decode c x = .ok pe.1)
          ((flatten s.multiaddresses ++ r1).take m)
          (connects (GetNodesLiveness c w s req fuel).trace)) ∧
      probes (GetNodesLiveness c w s req fuel).trace = [] ∧
      responses (GetNodesLiveness c w s req fuel).trace = [] := by
  apply GetNodesLiveness_poisoned c w s req fuel (flatten s.multiaddresses ++ r1) r2 a e0 _ hbad
  rw [flatten_append]
  simp [flatten, hreq]

/-- C6, worked example of the amended statement: the malformed address comes second in
the request, after one earlier registration. -/
theorem malformed_address_stops_connecting_example :
    (Request.mk [Example.addrB, Example.addrBad, Example.addrA]).Multiaddresses =
        [Example.addrB] ++ Example.addrBad :: [Example.addrA] ∧
      (∃ e, (GetNodesLiveness Example.codec Example.calm
          { multiaddresses := [{ Multiaddresses := [Example.addrA] }] }
          { Multiaddresses := [Example.addrB, Example.addrBad, Example.addrA] } 2).ret =
            some e) ∧
      responses (GetNodesLiveness Example.codec Example.calm
          { multiaddresses := [{ Multiaddresses := [Example.addrA] }] }
          { Multiaddresses := [Example.addrB, Example.addrBad, Example.addrA] } 2).trace =
        [] :=
  have h := malformed_address_stops_connecting Example.codec Example.calm
    { multiaddresses := [{ Multiaddresses := [Example.addrA] }] }
    { Multiaddresses := [Example.addrB, Example.addrBad, Example.addrA] } 2
    [Example.addrB] [Example.addrA] Example.addrBad
    { Error := "failed to parse multiaddr: must begin with /" } rfl rfl
  ⟨rfl, h.1, h.2.2.2⟩

/-- C6 as stated fails: on a fresh server, a request with a well-formed address followed
by a malformed one is rejected with an error, and yet `h.Connect` has been called for
the well-formed address. -/
theorem malformed_address_after_connection :
    (∃ a ∈ (Request.mk [Example.addrA, Example.addrBad]).Multiaddresses,
        ∃ e, decode Example.codec a = .error e) ∧
      (GetNodesLiveness Example.codec Example.calm { multiaddresses := [] }
          { Multiaddresses := [Example.addrA, Example.addrBad] } 0).ret =
        some { Error := "failed to parse multiaddr: must begin with /" } ∧
      connects (GetNodesLiveness Example.codec Example.calm { multiaddresses := [] }
          { Multiaddresses := [Example.addrA, Example.addrBad] } 0).trace =
        [(Example.infoA, none)] := by
  refine ⟨⟨Example.addrBad, by decide,
    { Error := "failed to parse multiaddr: must begin with /" }, rfl⟩, by decide, by decide⟩

/-- C9: after a call whose request holds an address that cannot be decoded, and after
any further calls, every call on that server, whatever its request and its world,
returns an error from the connection step: it issues no probe and publishes no
response. -/
theorem malformed_address_poisons_server (c : Codec) (w1 : World) (s : server)
    (req1 : Request) (fuel1 : Nat) (a : String) (e0 : GoError)
    (ha : a ∈ req1.Multiaddresses) (hbad : decode c a = .error e0)
    (calls : List (World × Request × Nat)) (w : World) (req : Request) (fuel : Nat) :
    (∃ e, (GetNodesLiveness c w
        (afterCalls c (GetNodesLiveness c w1 s req1 fuel1).srv calls) req fuel).ret =
          some e) ∧
      probes (GetNodesLiveness c w
        (afterCalls c (GetNodesLiveness c w1 s req1 fuel1).srv calls) req fuel).trace = [] ∧
      responses (GetNodesLiveness c w
        (afterCalls c (GetNodesLiveness c w1 s req1 fuel1).srv calls) req fuel).trace =
          [] := by
  have h1 : req1 ∈ (GetNodesLiveness c w1 s req1 fuel1).srv.multiaddresses := by
    rw [GetNodesLiveness_srv]; simp
  have h2 := afterCalls_keeps c calls _ req1 h1
  have hmem : a ∈ flatten
      ((afterCalls c (GetNodesLiveness c w1 s req1 fuel1).srv calls).multiaddresses ++
        [req]) :=
    mem_flatten.mpr ⟨req1, List.mem_append_left _ h2, ha⟩
  obtain ⟨l1, l2, hflat⟩ := List.append_of_mem hmem
  have h := GetNodesLiveness_poisoned c w _ req fuel l1 l2 a e0 hflat hbad
  exact ⟨h.1, h.2.2.1, h.2.2.2⟩

/-- C9, worked example: a malformed request, one further call, then a call whose
addresses are all well-formed and reachable. -/
theorem malformed_address_poisons_server_example :
    Example.addrBad ∈ (Request.mk [Example.addrBad]).Multiaddresses ∧
      (∃ e, (GetNodesLiveness Example.codec Example.calm
        (afterCalls Example.codec
          (GetNodesLiveness Example.codec Example.calm { multiaddresses := [] }
            { Multiaddresses := [Example.addrBad] } 1).srv
          [(Example.calm, { Multiaddresses := [Example.addrB] }, 1)])
        { Multiaddresses := [Example.addrA] } 4).ret = some e) ∧
      responses (GetNodesLiveness Example.codec Example.calm
        (afterCalls Example.codec
          (GetNodesLiveness Example.codec Example.calm { multiaddresses := [] }
            { Multiaddresses := [Example.addrBad] } 1).srv
          [(Example.calm, { Multiaddresses := [Example.addrB] }, 1)])
        { Multiaddresses := [Example.addrA] } 4).trace = [] :=
  have h := malformed_address_poisons_server Example.codec Example.calm
    { multiaddresses := [] } { Multiaddresses := [Example.addrBad] } 1 Example.addrBad
    { Error := "failed to parse multiaddr: must begin with /" } (by decide) rfl
    [(Example.calm, { Multiaddresses := [Example.addrB] }, 1)] Example.calm
    { Multiaddresses := [Example.addrA] } 4
  ⟨by decide, h.1, h.2.2⟩

/-- C10 (as amended): when the flattened registry is empty once the request is
recorded, node creation succeeds, and the registry stays empty at every later read
(other sessions append no address while the handler runs), then after any number `n`
of loop iterations the handler has not returned and has done nothing but `n` sleeps
of two seconds: no connection, no probe, no `stream.Send`. -/
theorem empty_registry_only_sleeps_while_empty (c : Codec) (w : World)
    (arrivals : Nat → List Request) (s : server) (req : Request) (n : Nat)
    (hempty : flatten (s.multiaddresses ++ [req]) = [])
    (hstays : ∀ k, flatten (arrivals k) = [])
    (hnode : w.makeNode = none) :
    (GetNodesLivenessLive c w arrivals s req n).ret = none ∧
      (GetNodesLivenessLive c w arrivals s req n).trace =
        List.replicate n (Event.sleep (2 * Second)) ∧
      connects (GetNodesLivenessLive c w arrivals s req n).trace = [] ∧
      probes (GetNodesLivenessLive c w arrivals s req n).trace = [] ∧
      responses (GetNodesLivenessLive c w arrivals s req n).trace = [] ∧
      sleeps (GetNodesLivenessLive c w arrivals s req n).trace =
        List.replicate n (2 * Second) := by
  have h0 : flatten (s.multiaddresses ++ [req] ++ arrivals 0) = [] := by
    rw [flatten_append, hempty, hstays]; rfl
  have hconn : connectAll c w [] (s.multiaddresses ++ [req] ++ arrivals 0) = ([], none) := by
    rw [connectAll_eq, h0]; rfl
  obtain ⟨regs, hcyc⟩ := cyclesLive_empty c w arrivals hstays n 1
    (s.multiaddresses ++ [req] ++ arrivals 0) [] h0
  have hout : GetNodesLivenessLive c w arrivals s req n =
      { srv := { multiaddresses := regs },
        trace := List.replicate n (Event.sleep (2 * Second)), ret := none } := by
    unfold GetNodesLivenessLive
    simp only [hnode, hconn, hcyc, List.nil_append]
  rw [hout]
  have hs := replicate_sleep_observed n (2 * Second)
  exact ⟨rfl, rfl, hs.1, hs.2.1, hs.2.2.1, hs.2.2.2⟩

/-- C10, worked example of the amended statement: a fresh server, a request without
addresses, another session that registers a request without addresses, five loop
iterations. -/
theorem empty_registry_only_sleeps_while_empty_example :
    flatten ((server.mk []).multiaddresses ++ [{ Multiaddresses := [] }]) = [] ∧
      (∀ k, flatten (Example.emptyArrivals k) = []) ∧
      Example.calm.makeNode = none ∧
      (GetNodesLivenessLive Example.codec Example.calm Example.emptyArrivals
        { multiaddresses := [] } { Multiaddresses := [] } 5).ret = none ∧
      (GetNodesLivenessLive Example.codec Example.calm Example.emptyArrivals
        { multiaddresses := [] } { Multiaddresses := [] } 5).trace =
        List.replicate 5 (Event.sleep (2 * Second)) :=
  have hq : ∀ k, flatten (Example.emptyArrivals k) = [] := by
    intro k
    unfold Example.emptyArrivals
    split <;> rfl
  have h := empty_registry_only_sleeps_while_empty Example.codec Example.calm
    Example.emptyArrivals { multiaddresses := [] } { Multiaddresses := [] } 5 rfl hq rfl
  ⟨rfl, hq, rfl, h.1, h.2.1⟩

/-- C10 as stated fails: a fresh server receives a request without addresses, so the
flattened registry is empty once the request is recorded, and node creation succeeds;
another session registers an address during the first sleep; the second pass of the
handler probes that address and calls `stream.Send`, the subscriber has gone, and the
handler returns after two loop iterations. -/
theorem empty_registry_wakes_on_registration :
    flatten ((server.mk []).multiaddresses ++ [{ Multiaddresses := [] }]) = [] ∧
      Example.gone.makeNode = none ∧
      (GetNodesLivenessLive Example.codec Example.gone Example.lateArrival
        { multiaddresses := [] } { Multiaddresses := [] } 2).ret =
        some { Error := "transport is closing" } ∧
      (GetNodesLivenessLive Example.codec Example.gone Example.lateArrival
        { multiaddresses := [] } { Multiaddresses := [] } 2).trace =
        [Event.sleep (2 * Second),
          Event.ping Example.addrA Example.infoA.ID
            { RTT := 0, Error := some { Error := "failed to dial" } },
          Event.send { Pingmessage := "pinged " ++ Example.addrA ++ " in 0s" }
            (some { Error := "transport is closing" }),
          Event.close] := by
  refine ⟨rfl, rfl, by decide, by decide⟩

/-- C3: when the connection step succeeded on the registry and the next `K` calls of
`stream.Send` succeed, where `K` is the number of addresses of the flattened registry
(duplicates counted), one pass of the loop started in any state `tr` runs to its end
and is followed by the sleep; the pass consists of exactly `K` probes and `K`
responses, and for every `i < K` the `i`-th probe targets the peer decoded from the
`i`-th address and the `i`-th response is the line built from that address and that
probe, whatever the probe outcomes. -/
theorem one_pass_probes_registry_in_order (c : Codec) (w : World) (reqs : List Request)
    (tr0 tr : List Event)
    (hEst : (connectAll c w tr0 reqs).2 = none)
    (hSend : ∀ j, j < (flatten reqs).length →
      ∀ r, w.Send ((responses tr).length + j) r = none) :
    ∃ evs, probeAll c w tr reqs = (tr ++ evs, none) ∧
      cycles c w reqs 1 tr = (tr ++ evs ++ [Event.sleep (2 * Second)], none) ∧
      evs.length = 2 * (flatten reqs).length ∧
      (probes evs).length = (flatten reqs).length ∧
      (responses evs).length = (flatten reqs).length ∧
      connects evs = [] ∧ sleeps evs = [] ∧
      ∀ i (hi : i < (flatten reqs).length), ∃ p, decode c (flatten reqs)[i] = .ok p ∧
        (probes evs)[i]? =
          some ((flatten reqs)[i], p.ID, w.Ping ((probes tr).length + i) p.ID) ∧
        (responses evs)[i]? =
          some ({ Pingmessage := "pinged " ++ (flatten reqs)[i] ++ " in " ++
            c.durationString (w.Ping ((probes tr).length + i) p.ID).RTT }, none) := by
  rw [connectAll_eq] at hEst
  have hdec := connectRequest_ok_decodes c w (flatten reqs) tr0 hEst
  obtain ⟨evs, hrun, hrest⟩ := probeRequest_pass c w (flatten reqs) tr hdec hSend
  refine ⟨evs, by rw [probeAll_eq, hrun], ?_, hrest⟩
  simp only [cycles, probeAll_eq, hrun]

/-- C3, worked example: three registry slots in two requests, one address twice. -/
theorem one_pass_probes_registry_in_order_example :
    ∃ evs,
      cycles Example.codec Example.calm
        [{ Multiaddresses := [Example.addrA] },
          { Multiaddresses := [Example.addrB, Example.addrA] }] 1
        [Event.connect Example.infoA none] =
        ([Event.connect Example.infoA none] ++ evs ++ [Event.sleep (2 * Second)], none) ∧
      (responses evs).length = 3 :=
  match one_pass_probes_registry_in_order Example.codec Example.calm
    [{ Multiaddresses := [Example.addrA] },
      { Multiaddresses := [Example.addrB, Example.addrA] }] []
    [Event.connect Example.infoA none] (by decide) (fun _ _ _ => rfl) with
  | ⟨evs, _, hcyc, _, _, hresp, _⟩ => ⟨evs, hcyc, hresp⟩

/-- C7: once the connection step has succeeded, the handler has returned exactly when
some `stream.Send` of its trace returned an error; it then returns the error of that
`Send`, which is the last call before the deferred close, and no earlier `Send` had
failed; a `Send` that fails on its `n`-th call makes the handler return within `n + 1`
passes when the registry is not empty; and once it has returned, further passes change
nothing. -/
theorem returns_iff_publish_fails (c : Codec) (w : World) (s : server) (req : Request)
    (fuel : Nat) (hnode : w.makeNode = none)
    (hEst : (connectAll c w [] (s.multiaddresses ++ [req])).2 = none) :
    ((∃ e, (GetNodesLiveness c w s req fuel).ret = some e) ↔
        ∃ r e, Event.send r (some e) ∈ (GetNodesLiveness c w s req fuel).trace) ∧
      (∀ e, (GetNodesLiveness c w s req fuel).ret = some e →
        ∃ pre r, (GetNodesLiveness c w s req fuel).trace =
            pre ++ [Event.send r (some e), Event.close] ∧
          ∀ r1 e1, Event.send r1 (some e1) ∉ pre) ∧
      (∀ n, 0 < (flatten (s.multiaddresses ++ [req])).length →
        (∀ r, w.Send n r ≠ none) →
        ∃ e, (GetNodesLiveness c w s req (n + 1)).ret = some e) ∧
      (∀ e, (GetNodesLiveness c w s req fuel).ret = some e →
        GetNodesLiveness c w s req (fuel + 1) = GetNodesLiveness c w s req fuel) := by
  rw [connectAll_eq] at hEst
  have hdec := connectRequest_ok_decodes c w _ [] hEst
  have hclean := connectRequest_clean c w (flatten (s.multiaddresses ++ [req])) [] Clean_nil
  have hquiet := connectRequest_quiet c w (flatten (s.multiaddresses ++ [req])) []
  rcases hconn : connectRequest c w [] (flatten (s.multiaddresses ++ [req])) with ⟨tr, ret⟩
  rw [hconn] at hEst hclean hquiet
  simp only at hEst hclean hquiet
  subst hEst
  have hout := fun k => GetNodesLiveness_connected c w s req k tr hnode hconn
  refine ⟨?_, ?_, ?_, ?_⟩
  · rcases cycles_cases c w (s.multiaddresses ++ [req]) fuel tr hdec hclean with
      ⟨hnone, hc⟩ | ⟨pre, r, e, hrun, hc⟩
    · obtain ⟨htr, hret⟩ := (hout fuel).1 hnone
      rw [htr, hret]
      constructor
      · rintro ⟨e, he⟩; simp at he
      · rintro ⟨r, e, hmem⟩; exact absurd hmem (hc r e)
    · obtain ⟨htr, hret⟩ := (hout fuel).2 e (by rw [hrun])
      rw [htr, hret, hrun]
      constructor
      · intro _; exact ⟨r, e, by simp⟩
      · intro _; exact ⟨e, rfl⟩
  · intro e he
    rcases cycles_cases c w (s.multiaddresses ++ [req]) fuel tr hdec hclean with
      ⟨hnone, hc⟩ | ⟨pre, r, e1, hrun, hc⟩
    · rw [((hout fuel).1 hnone).2] at he; simp at he
    · obtain ⟨htr, hret⟩ := (hout fuel).2 e1 (by rw [hrun])
      rw [hret] at he
      have hee : e1 = e := by simpa using he
      subst hee
      refine ⟨pre, r, ?_, hc⟩
      rw [htr, hrun]; simp
  · intro n hK hfail
    cases hcyc : (cycles c w (s.multiaddresses ++ [req]) (n + 1) tr).2 with
    | some e => exact ⟨e, ((hout (n + 1)).2 e hcyc).2⟩
    | none =>
      have hcount := cycles_count c w (s.multiaddresses ++ [req]) n hfail (n + 1) tr
        (by rw [hquiet.2.1]; simp [responses]) hcyc
      rw [hquiet.2.1] at hcount
      simp only [responses, List.length_nil, Nat.zero_add] at hcount
      have h1 : n + 1 ≤ (n + 1) * (flatten (s.multiaddresses ++ [req])).length :=
        Nat.le_mul_of_pos_right _ hK
      omega
  · intro e he
    cases hcyc : (cycles c w (s.multiaddresses ++ [req]) fuel tr).2 with
    | none => rw [((hout fuel).1 hcyc).2] at he; simp at he
    | some e1 =>
      have hpair : cycles c w (s.multiaddresses ++ [req]) fuel tr =
          ((cycles c w (s.multiaddresses ++ [req]) fuel tr).1, some e1) := by
        rw [← hcyc]
      have hst := cycles_stable c w (s.multiaddresses ++ [req]) fuel tr _ e1 hpair
      unfold GetNodesLiveness
      simp only [hnode, connectAll_eq, hconn]
      rw [hst, hpair]

/-- C7, worked example: two registered addresses, the subscriber is gone when the
second response is sent. -/
theorem returns_iff_publish_fails_example :
    Example.hangup.makeNode = none ∧
      (connectAll Example.codec Example.hangup []
        ((server.mk []).multiaddresses ++
          [{ Multiaddresses := [Example.addrA, Example.addrB] }])).2 = none ∧
      ((∃ e, (GetNodesLiveness Example.codec Example.hangup { multiaddresses := [] }
          { Multiaddresses := [Example.addrA, Example.addrB] } 3).ret = some e) ↔
        ∃ r e, Event.send r (some e) ∈
          (GetNodesLiveness Example.codec Example.hangup { multiaddresses := [] }
            { Multiaddresses := [Example.addrA, Example.addrB] } 3).trace) ∧
      (GetNodesLiveness Example.codec Example.hangup { multiaddresses := [] }
          { Multiaddresses := [Example.addrA, Example.addrB] } 3).ret =
        some { Error := "transport is closing" } :=
  ⟨rfl, by decide,
    (returns_iff_publish_fails Example.codec Example.hangup { multiaddresses := [] }
      { Multiaddresses := [Example.addrA, Example.addrB] } 3 rfl (by decide)).1,
    by decide⟩

/-- C8: in every trace of the handler, a probe of the address string `a` that succeeds
with round-trip time `d` is followed at once by the `stream.Send` of the line
`"pinged " ++ a ++ " in " ++ d.String()`, where `a` is an address string of the registry
as it was submitted, and the probe targets the peer `a` decodes to; and on a fresh
server, a request with two addresses that decode, connect and answer the probe makes
the first pass publish the two lines of these two addresses, in order. -/
theorem success_line_carries_literal_address (c : Codec) (w : World) (s : server)
    (req : Request) (fuel : Nat) :
    (∀ l1 l2 a id d,
        (GetNodesLiveness c w s req fuel).trace =
          l1 ++ Event.ping a id { RTT := d, Error := none } :: l2 →
        a ∈ flatten (s.multiaddresses ++ [req]) ∧
          (∃ p, decode c a = .ok p ∧ id = p.ID) ∧
          ∃ err l3, l2 =
            Event.send { Pingmessage := "pinged " ++ a ++ " in " ++ c.durationString d }
              err :: l3) ∧
      (∀ a b pa pb d1 d2, s.multiaddresses = [] → req.Multiaddresses = [a, b] →
        w.makeNode = none → decode c a = .ok pa → decode c b = .ok pb →
        w.Connect 0 pa = none → w.Connect 1 pb = none →
        w.Ping 0 pa.ID = { RTT := d1, Error := none } →
        w.Ping 1 pb.ID = { RTT := d2, Error := none } →
        (∀ r, w.Send 0 r = none) → (∀ r, w.Send 1 r = none) →
        (GetNodesLiveness c w s req 1).ret = none ∧
          responses (GetNodesLiveness c w s req 1).trace =
            [({ Pingmessage := "pinged " ++ a ++ " in " ++ c.durationString d1 }, none),
              ({ Pingmessage := "pinged " ++ b ++ " in " ++ c.durationString d2 }, none)]) := by
  constructor
  · intro l1 l2 a id d h
    exact GetNodesLiveness_paired c w s req fuel l1 l2 a id _ h
  · intro a b pa pb d1 d2 hs hreq hnode hda hdb hc0 hc1 hp0 hp1 hs0 hs1
    obtain ⟨regs⟩ := s
    obtain ⟨addrs⟩ := req
    simp only at hs hreq
    subst hs hreq
    simp [GetNodesLiveness, connectAll, connectRequest, cycles, probeAll, probeRequest,
      hnode, hda, hdb, hc0, hc1, hp0, hp1, hs0, hs1, connects, probes, responses,
      pingMessage]

/-- C8, worked example: two reachable peers on a fresh server. -/
theorem success_line_carries_literal_address_example :
    responses (GetNodesLiveness Example.codec Example.calm { multiaddresses := [] }
        { Multiaddresses := [Example.addrA, Example.addrB] } 1).trace =
      [({ Pingmessage := "pinged " ++ Example.addrA ++ " in " ++
            Example.codec.durationString 1500000 }, none),
        ({ Pingmessage := "pinged " ++ Example.addrB ++ " in " ++
            Example.codec.durationString 1500000 }, none)] :=
  ((success_line_carries_literal_address Example.codec Example.calm { multiaddresses := [] }
      { Multiaddresses := [Example.addrA, Example.addrB] } 1).2
    Example.addrA Example.addrB Example.infoA Example.infoB 1500000 1500000
    rfl rfl rfl rfl rfl rfl rfl rfl rfl (fun _ => rfl) (fun _ => rfl)).2

end Liveness
